import Mathlib

/-!
Verification of the SF-Github-Project-Helper orchestration pipeline.

The definitions below are a shallow embedding of the Node.js source
(`SF-Github-Project-Helper.js`): the command runner, the change watcher,
the branch-name derivation, the configuration validator, the changeset
retrieval stage and the batch orchestrator `populateAndPushBranches`,
and the recursive relocation copy.  External effects (filesystem
existence checks, filesystem watch events, external command results)
are passed in explicitly; each external command issued by the pipeline
is recorded in a trace.
-/

namespace SFGH

/-! ## Command runner (`runCommand`, source lines 799-820) -/

/-- Result object resolved by `runCommand`: the process exit code and the
concatenation of all stdout/stderr chunks. -/
structure CommandResult where
  exit_code : Int
  output : String
deriving DecidableEq

/-- One chunk of child-process stream output, as delivered to the
`stdout.on("data")` / `stderr.on("data")` handlers. -/
inductive ChildEvent where
  | out (chunk : String)
  | err (chunk : String)
deriving DecidableEq

/-- The payload of a stream chunk (both handlers append the chunk text). -/
def ChildEvent.chunk : ChildEvent → String
  | .out s => s
  | .err s => s

/-- The `output += x` accumulation loop of `runCommand`: both the stdout and
the stderr handler append the chunk to the single `output` buffer, in
arrival order. -/
def runCommandOutput (acc : String) : List ChildEvent → String
  | [] => acc
  | e :: rest => runCommandOutput (acc ++ e.chunk) rest

/-- `runCommand` resolves on process exit with the exit code and the
accumulated output.  It resolves for every exit code; there is no reject
path and no throw (the promise executor only ever calls `resolveFunc`). -/
def runCommand (events : List ChildEvent) (code : Int) : CommandResult :=
  { exit_code := code, output := runCommandOutput "" events }

/-! ## Branch-name derivation (`convertPackgeNameToGitName`, lines 639-642) -/

/-- The character class of the JavaScript regular expression `\s`:
tab, line feed, vertical tab, form feed, carriage return, space, and the
Unicode space separators (NBSP, Ogham space mark, en quad .. hair space,
line/paragraph separator, narrow NBSP, medium mathematical space,
ideographic space, BOM). -/
def jsWhitespace (c : Char) : Bool :=
  c = '\t' || c = '\n' || c.toNat = 0x0b || c.toNat = 0x0c || c = '\r' || c = ' ' ||
  c.toNat = 0xa0 || c.toNat = 0x1680 ||
  (0x2000 ≤ c.toNat && c.toNat ≤ 0x200a) ||
  c.toNat = 0x2028 || c.toNat = 0x2029 || c.toNat = 0x202f || c.toNat = 0x205f ||
  c.toNat = 0x3000 || c.toNat = 0xfeff

/-- `packageName.replace(/\s/g, "-")`: each single character matched by `\s`
is replaced by one hyphen. -/
def convertPackgeNameToGitName (packageName : String) : String :=
  String.mk (packageName.data.map (fun c => if jsWhitespace c then '-' else c))

/-! ## Change watcher (callback at lines 481-483, dedup at line 490) -/

/-- One filesystem event delivered to the `fs.watch` callback. -/
structure WatchEvent where
  eventType : String
  filename : String
deriving DecidableEq

/-- `filename.endsWith('.xml')`. -/
def endsWithXml (filename : String) : Bool :=
  ".xml".data.isSuffixOf filename.data

/-- The `modifiedFiles` array built by the watcher callback: for each event,
the filename is pushed when it ends in `.xml` (the event type is ignored). -/
def watcherRecordedFiles (events : List WatchEvent) : List String :=
  (events.filter (fun e => endsWithXml e.filename)).map (fun e => e.filename)

/-- `[...new Set(modifiedFiles)]`: a JavaScript `Set` keeps the first
occurrence of each element, in insertion order.  `seen` holds the elements
already emitted. -/
def jsSetDedupAux (seen : List String) : List String → List String
  | [] => []
  | x :: xs => if x ∈ seen then jsSetDedupAux seen xs else x :: jsSetDedupAux (x :: seen) xs

/-- Deduplication via `new Set`, first occurrence kept. -/
def jsSetDedup (l : List String) : List String :=
  jsSetDedupAux [] l

/-- The touched-file list produced for one retrieval window: the recorded
`.xml` filenames with duplicates removed. -/
def touchedFiles (events : List WatchEvent) : List String :=
  jsSetDedup (watcherRecordedFiles events)

/-! ## Configuration validation (`checkConfigsValid`, lines 69-93; `init`, lines 54-61) -/

/-- A configuration value as it appears in `config.json`: a string or a
boolean. -/
inductive JSValue where
  | str (s : String)
  | bool (b : Bool)
deriving DecidableEq

/-- JavaScript loose equality `value == ""` as used by the emptiness check
of `checkConfigsValid`: a string equals `""` exactly when it is empty, and a
boolean is coerced to a number, so `false == ""` holds (both sides convert
to 0) while `true == ""` does not. -/
def looseEqEmptyString : JSValue → Bool
  | .str s => s = ""
  | .bool b => !b

/-- The object returned by `checkConfigsValid`. -/
structure ConfigCheckResult where
  valid : Bool
  message : String
deriving DecidableEq

/-- A configuration object: its properties in insertion order (`for..in`
iterates string keys in that order). -/
abbrev Config : Type := List (String × JSValue)

/-- Property access `configObject[key]` (first matching key). -/
def getProperty (cfg : Config) (key : String) : Option JSValue :=
  match cfg with
  | [] => none
  | (k, v) :: rest => if k = key then some v else getProperty rest key

/-- The `for..in` emptiness loop of `checkConfigsValid`: each property whose
value is loosely equal to `""` flips `valid` to false and overwrites the
message. -/
def checkConfigsLoop (acc : ConfigCheckResult) : Config → ConfigCheckResult
  | [] => acc
  | (k, v) :: rest =>
    if looseEqEmptyString v then
      checkConfigsLoop
        ⟨false, "Property " ++ k ++ " in config must not be empty. Please populate it and try again"⟩
        rest
    else
      checkConfigsLoop acc rest

/-- `checkConfigsValid(configObject)`: first the `gitUsername.indexOf('@')`
check, then the emptiness loop over every property.  Reading `.indexOf` of
a missing or non-string `gitUsername` raises a TypeError, modelled as
`none`. -/
def checkConfigsValid (cfg : Config) : Option ConfigCheckResult :=
  match getProperty cfg "gitUsername" with
  | some (.str u) =>
    let start : ConfigCheckResult :=
      if u.data.contains '@' then
        ⟨false, "Github username has an @ symbol. It must not. Remove the @ portion of the username and try again"⟩
      else
        ⟨true, "Configs Valid!"⟩
    some (checkConfigsLoop start cfg)
  | _ => none

/-- The startup path of `init` after the config is loaded: if the validity
check fails, `init` throws the failure message before `displayMenu` is
called; `Except.ok` marks that the menu (and hence any pipeline stage) is
reached. -/
def init (cfg : Config) : Except String Unit :=
  match checkConfigsValid cfg with
  | none => Except.error "TypeError: Cannot read properties of undefined"
  | some r => if !r.valid then Except.error r.message else Except.ok ()

/-! ## External command trace

Each external invocation issued by the changeset pipeline is recorded as
one `Cmd`, carrying the parameter spliced into the command line. -/

/-- The external commands issued by the changeset flow, in source order:
`git branch -l <name>)` (the query of `checkIfBranchExists`, stray closing
parenthesis included), `git branch <name> -f`, `git checkout -b <name>`,
the `sfdx force:mdapi:retrieve` call for one changeset, `git add <file>`,
`git commit -m "<message>" -a`, and `git push -u origin HEAD` (the branch
name does not appear in the push command line). -/
inductive Cmd where
  | branchQuery (branch : String)
  | branchCreate (branch : String)
  | checkout (branch : String)
  | retrieve (changeSetName : String)
  | addFile (fileName : String)
  | commit (message : String)
  | push
deriving DecidableEq

/-- The external world as seen by one pass of the pipeline:
the `skipExistingChangeSets` configuration flag, whether
`downloadedPackagesFolder\name` already exists on disk, the watch events
observed while a given changeset is being retrieved, the outcome of
reading the `package.xml` of a unit, and the `CommandResult` each
external command resolves with.

`packageXML name` is the value of
`getPackageXMLAsObject(name).Package.description` (source lines 605-618
and 570-571): `some d` when `downloadedPackagesFolder\name\package.xml`
exists and parses to an object with a `Package` property (a present
`Package` whose description is missing yields the string representation
of `undefined` and is still covered by `some`); `none` when
`fs.readFileSync` throws — in particular after a failed retrieval that
downloaded nothing — or when the parse produced no object, so that
reading `.Package.description` throws a TypeError. -/
structure Env where
  skipExistingChangeSets : Bool
  dirExists : String → Bool
  watchEvents : String → List WatchEvent
  packageXML : String → Option String
  oracle : Cmd → CommandResult

/-! ## Branch manager (`createGitBranch` lines 674-683,
`changeToGitBranch` lines 690-695, `checkIfBranchExists` lines 737-741) -/

/-- The value `checkIfBranchExists` would resolve with, had it been
awaited: `output` is the `CommandResult` object, so `output.length` is
`undefined` and `undefined > 0` is false, and an object is never loosely
equal to `0`; the function always resolves `false`. -/
def checkIfBranchExists (_output : CommandResult) : Bool :=
  false

/-- In `createGitBranch` the call `checkIfBranchExists(branchName)` is not
awaited, so the `if` tests the Promise object itself — and a Promise is
always truthy. -/
def unawaitedPromiseIsTruthy : Bool := true

/-- Commands issued by `createGitBranch(branchName)`: the name is derived,
the (unawaited) existence check fires its `git branch -l` query, and the
`git branch <name> -f` creation runs only when the promise is falsy —
which never happens. -/
def createGitBranch (branchName : String) : List Cmd :=
  let branch := convertPackgeNameToGitName branchName
  if !unawaitedPromiseIsTruthy then
    [Cmd.branchQuery branch, Cmd.branchCreate branch]
  else
    [Cmd.branchQuery branch]

/-- Commands issued by `changeToGitBranch(branchName)`. -/
def changeToGitBranch (branchName : String) : List Cmd :=
  [Cmd.checkout (convertPackgeNameToGitName branchName)]

/-! ## Retrieval stage (`fetchChangeSets`, lines 469-506) -/

/-- Observable outcome of one `fetchChangeSets` call: the returned file
list, the external commands issued, how many watchers were started and how
many were closed, and which packages were copied into the project
folder. -/
structure FetchResult where
  files : List String
  cmds : List Cmd
  watchersOpened : Nat
  watchersClosed : Nat
  copied : List String
deriving DecidableEq

/-- `fetchChangeSets(changeSetNames, copyToProjectFolder)`.  A name whose
download directory already exists is skipped when
`skipExistingChangeSets` is set, and the loop continues; otherwise a
watcher is started, the retrieval command is issued (its result is
ignored), and the function returns from inside the loop.  On the
`!copyToProjectFolder` path the deduplicated watcher list is returned and
the `watcher.close()` after the `return` statement is unreachable; on the
copy path `modifiedFiles` is first cleared, the package is copied, the
watcher is closed, and the (empty) deduplicated list is returned.  When
every name was skipped the loop ends and `[]` is returned. -/
def fetchChangeSets (env : Env) (copyToProjectFolder : Bool) :
    List String → FetchResult
  | [] => { files := [], cmds := [], watchersOpened := 0, watchersClosed := 0, copied := [] }
  | changeSetName :: rest =>
    if env.skipExistingChangeSets && env.dirExists changeSetName then
      fetchChangeSets env copyToProjectFolder rest
    else
      if !copyToProjectFolder then
        { files := jsSetDedup (watcherRecordedFiles (env.watchEvents changeSetName)),
          cmds := [Cmd.retrieve changeSetName],
          watchersOpened := 1, watchersClosed := 0, copied := [] }
      else
        { files := jsSetDedup [],
          cmds := [Cmd.retrieve changeSetName],
          watchersOpened := 1, watchersClosed := 1, copied := [changeSetName] }

/-! ## Batch orchestrator (`populateAndPushBranches`, lines 549-577) -/

/-- Commands issued for one branch name of the batch, and whether the
unit ran to completion: branch creation, checkout, the retrieval (called
as `fetchChangeSets([branchName])`, so `copyToProjectFolder` is
`undefined`, i.e. falsy), and one `git add` per returned file.  Then
`getPackageXMLAsObject` reads the unit's `package.xml`: if that read
throws (`packageXML` is `none`), the unit aborts at this point and
neither the commit nor the push is issued (second component `false`);
otherwise the commit with the parsed description and the push follow.
No `exit_code` of any command is ever inspected. -/
def unitCmds (env : Env) (branchName : String) : List Cmd × Bool :=
  let pre :=
    createGitBranch branchName
    ++ changeToGitBranch branchName
    ++ (fetchChangeSets env false [branchName]).cmds
    ++ (fetchChangeSets env false [branchName]).files.map Cmd.addFile
  match env.packageXML branchName with
  | none => (pre, false)
  | some description => (pre ++ [Cmd.commit description, Cmd.push], true)

/-- `populateAndPushBranches(branchNames)`: the units are processed in
input order; a unit whose `package.xml` read throws ends the batch — the
error escapes the async loop (the call site does not even await it), so
no later unit of the list is processed. -/
def populateAndPushBranches (env : Env) : List String → List Cmd
  | [] => []
  | branchName :: rest =>
    let u := unitCmds env branchName
    if u.2 then u.1 ++ populateAndPushBranches env rest else u.1

/-- A unit whose `package.xml` read succeeds runs to completion and its
push command is issued. -/
theorem unitCmds_complete (env : Env) (branchName : String)
    (h : (env.packageXML branchName).isSome = true) :
    (unitCmds env branchName).2 = true ∧ Cmd.push ∈ (unitCmds env branchName).1 := by
  rcases Option.isSome_iff_exists.mp h with ⟨d, hd⟩
  unfold unitCmds
  rw [hd]
  simp

/-- When every unit of the batch has a readable `package.xml`, the batch
reaches every unit and issues its push command. -/
theorem push_mem_populateAndPushBranches (env : Env) :
    ∀ (branchNames : List String) (branchName : String),
      branchName ∈ branchNames →
      (∀ n ∈ branchNames, (env.packageXML n).isSome = true) →
      Cmd.push ∈ populateAndPushBranches env branchNames := by
  intro branchNames
  induction branchNames with
  | nil =>
    intro branchName hmem _
    cases hmem
  | cons n rest ih =>
    intro branchName hmem hall
    obtain ⟨hsnd, hpush⟩ := unitCmds_complete env n (hall n (List.mem_cons_self n rest))
    simp only [populateAndPushBranches]
    rw [if_pos hsnd]
    rcases List.mem_cons.mp hmem with rfl | hmem'
    · exact List.mem_append.mpr (Or.inl hpush)
    · exact List.mem_append.mpr
        (Or.inr (ih branchName hmem' (fun m hm => hall m (List.mem_cons_of_mem n hm))))

/-! ## Relocation copy (`copyFolderRecursiveSync`, lines 522-543;
`copyPackageIntoProjectFolder`, lines 514-516) -/

/-- A filesystem node: a file with its byte content, or a directory with
its named children. -/
inductive FSTree where
  | file (content : String)
  | dir (children : List (String × FSTree))

/-- Directory lookup by entry name (first match). -/
def lookupEntry : List (String × FSTree) → String → Option FSTree
  | [], _ => none
  | (k, v) :: rest, n => if k = n then some v else lookupEntry rest n

/-- Write an entry into a directory: replace the first entry of that name
in place, or append a new one. -/
def setEntry : List (String × FSTree) → String → FSTree → List (String × FSTree)
  | [], n, e => [(n, e)]
  | (k, v) :: rest, n, e => if k = n then (n, e) :: rest else (k, v) :: setEntry rest n e

/-- Modelled from the spec: `copyFileSync` is called by
`copyFolderRecursiveSync` but is not defined anywhere under the sources;
the spec describes the relocation as overwriting files of the same
relative path, unconditionally, with no diffing — last writer wins.
Writing where a directory of the same name already sits fails (the
filesystem refuses to overwrite a directory with a file), modelled as
`none`. -/
def copyFileSync (fileName : String) (content : String)
    (target : List (String × FSTree)) : Option (List (String × FSTree)) :=
  match lookupEntry target fileName with
  | some (.dir _) => none
  | _ => some (setEntry target fileName (.file content))

mutual

/-- `copyFolderRecursiveSync(source, target)` acting on the children of
the (existing) target directory.  `targetFolder = join(target,
basename(source))` is created when absent; when the source is a
directory each child is copied into it — files via `copyFileSync`,
directories recursively.  A file source creates the folder but copies
nothing (the `isDirectory` guard).  When the target name is occupied by a
file, `mkdirSync` is skipped and any attempted copy into that path
throws, modelled as `none` (an empty source directory copies nothing and
succeeds). -/
def copyFolderRecursiveSync (sourceName : String) (source : FSTree)
    (target : List (String × FSTree)) : Option (List (String × FSTree)) :=
  match source with
  | .file _ =>
    match lookupEntry target sourceName with
    | none => some (setEntry target sourceName (.dir []))
    | some _ => some target
  | .dir children =>
    match lookupEntry target sourceName with
    | some (.file _) => if children.isEmpty then some target else none
    | some (.dir existing) =>
      (copyChildren children existing).map (fun cs => setEntry target sourceName (.dir cs))
    | none =>
      (copyChildren children []).map (fun cs => setEntry target sourceName (.dir cs))

/-- The `files.forEach` loop of `copyFolderRecursiveSync`: each source
entry is copied into the target folder, left to right, threading the
target state. -/
def copyChildren : List (String × FSTree) → List (String × FSTree) →
    Option (List (String × FSTree))
  | [], target => some target
  | (entryName, .file content) :: rest, target =>
    match copyFileSync entryName content target with
    | none => none
    | some t2 => copyChildren rest t2
  | (entryName, .dir cs) :: rest, target =>
    match copyFolderRecursiveSync entryName (.dir cs) target with
    | none => none
    | some t2 => copyChildren rest t2

end

mutual

/-- A source tree as produced by a real directory listing: `readdirSync`
never reports the same name twice, so the children of every directory
have pairwise distinct names. -/
def wfTree : FSTree → Bool
  | .file _ => true
  | .dir cs => wfChildren cs

/-- Well-formedness of a directory listing: distinct names, recursively. -/
def wfChildren : List (String × FSTree) → Bool
  | [] => true
  | (entryName, t) :: rest =>
    !((rest.map Prod.fst).contains entryName) && wfTree t && wfChildren rest

end

/-! ## Helper lemmas -/

theorem mem_jsSetDedupAux (x : String) (seen l : List String) :
    x ∈ jsSetDedupAux seen l ↔ x ∈ l ∧ x ∉ seen := by
  induction l generalizing seen with
  | nil => simp [jsSetDedupAux]
  | cons y ys ih =>
    by_cases hy : y ∈ seen
    · simp only [jsSetDedupAux, if_pos hy, ih, List.mem_cons]
      constructor
      · rintro ⟨hxy, hxs⟩
        exact ⟨Or.inr hxy, hxs⟩
      · rintro ⟨rfl | hxy, hxs⟩
        · exact absurd hy hxs
        · exact ⟨hxy, hxs⟩
    · simp only [jsSetDedupAux, if_neg hy, List.mem_cons, ih]
      constructor
      · rintro (rfl | ⟨hxy, hxs⟩)
        · exact ⟨Or.inl rfl, hy⟩
        · exact ⟨Or.inr hxy, fun hc => hxs (Or.inr hc)⟩
      · rintro ⟨rfl | hxy, hxs⟩
        · exact Or.inl rfl
        · by_cases hxy' : x = y
          · exact Or.inl hxy'
          · exact Or.inr ⟨hxy, fun hc => hc.elim hxy' hxs⟩

theorem nodup_jsSetDedupAux (seen l : List String) :
    (jsSetDedupAux seen l).Nodup := by
  induction l generalizing seen with
  | nil => simp [jsSetDedupAux]
  | cons y ys ih =>
    by_cases hy : y ∈ seen
    · simpa [jsSetDedupAux, if_pos hy] using ih seen
    · simp only [jsSetDedupAux, if_neg hy, List.nodup_cons]
      refine ⟨fun hc => ?_, ih (y :: seen)⟩
      exact ((mem_jsSetDedupAux y (y :: seen) ys).mp hc).2 (List.mem_cons_self y seen)

theorem mem_jsSetDedup (x : String) (l : List String) :
    x ∈ jsSetDedup l ↔ x ∈ l := by
  simp [jsSetDedup, mem_jsSetDedupAux]

theorem nodup_jsSetDedup (l : List String) : (jsSetDedup l).Nodup :=
  nodup_jsSetDedupAux [] l

theorem mem_watcherRecordedFiles (f : String) (events : List WatchEvent) :
    f ∈ watcherRecordedFiles events ↔
      (∃ e ∈ events, e.filename = f) ∧ endsWithXml f = true := by
  simp only [watcherRecordedFiles, List.mem_map, List.mem_filter]
  constructor
  · rintro ⟨e, ⟨he, hxml⟩, rfl⟩
    exact ⟨⟨e, he, rfl⟩, hxml⟩
  · rintro ⟨⟨e, he, rfl⟩, hxml⟩
    exact ⟨e, ⟨he, hxml⟩, rfl⟩

theorem runCommandOutput_eq (acc : String) (events : List ChildEvent) :
    runCommandOutput acc events = acc ++ String.join (events.map ChildEvent.chunk) := by
  induction events generalizing acc with
  | nil =>
    apply String.ext
    simp [runCommandOutput, String.join_eq, String.data_append]
  | cons e rest ih =>
    apply String.ext
    simp [runCommandOutput, ih, String.join_eq, String.data_append]

theorem checkConfigsLoop_valid (acc : ConfigCheckResult) (l : Config) :
    (checkConfigsLoop acc l).valid =
      (acc.valid && l.all (fun kv => !looseEqEmptyString kv.2)) := by
  induction l generalizing acc with
  | nil => simp [checkConfigsLoop]
  | cons kv rest ih =>
    by_cases h : looseEqEmptyString kv.2
    · simp [checkConfigsLoop, h, ih]
    · simp only [checkConfigsLoop]
      rw [if_neg (by simpa using h)]
      simp [ih, h]

theorem fetchChangeSets_cmds (env : Env) (copyFlag : Bool) (names : List String) :
    (fetchChangeSets env copyFlag names).cmds =
      match names.find? (fun n => !(env.skipExistingChangeSets && env.dirExists n)) with
      | some n => [Cmd.retrieve n]
      | none => [] := by
  induction names with
  | nil => simp [fetchChangeSets]
  | cons n rest ih =>
    by_cases h : (env.skipExistingChangeSets && env.dirExists n) = true
    · rw [List.find?_cons_of_neg _ (by simp [h])]
      simpa [fetchChangeSets, h] using ih
    · rw [List.find?_cons_of_pos _ (by simp [h])]
      cases copyFlag <;> simp [fetchChangeSets, h]

theorem lookupEntry_setEntry_self (t : List (String × FSTree)) (n : String) (e : FSTree) :
    lookupEntry (setEntry t n e) n = some e := by
  induction t with
  | nil => simp [setEntry, lookupEntry]
  | cons kv rest ih =>
    by_cases h : kv.1 = n
    · simp [setEntry, lookupEntry, h]
    · simpa [setEntry, lookupEntry, h] using ih

theorem lookupEntry_setEntry_ne (t : List (String × FSTree)) (n m : String) (e : FSTree)
    (h : m ≠ n) : lookupEntry (setEntry t n e) m = lookupEntry t m := by
  induction t with
  | nil => simp [setEntry, lookupEntry, h, Ne.symm h]
  | cons kv rest ih =>
    by_cases hk : kv.1 = n
    · simp [setEntry, lookupEntry, hk, h, Ne.symm h]
    · by_cases hm : kv.1 = m <;> simp [setEntry, lookupEntry, hk, hm, h, ih]

theorem setEntry_eq_of_lookup (t : List (String × FSTree)) (n : String) (e : FSTree)
    (h : lookupEntry t n = some e) : setEntry t n e = t := by
  induction t with
  | nil => simp [lookupEntry] at h
  | cons kv rest ih =>
    by_cases hk : kv.1 = n
    · simp only [lookupEntry, if_pos hk] at h
      cases h
      obtain ⟨k, v⟩ := kv
      simp only at hk
      subst hk
      simp [setEntry]
    · simp only [lookupEntry, if_neg hk] at h
      simp [setEntry, hk, ih h]

theorem copyFileSync_lookup_ne (fileName content : String)
    (t t' : List (String × FSTree)) (m : String)
    (h : copyFileSync fileName content t = some t') (hm : m ≠ fileName) :
    lookupEntry t' m = lookupEntry t m := by
  unfold copyFileSync at h
  split at h
  · exact absurd h (by simp)
  · cases h
    exact lookupEntry_setEntry_ne t fileName m _ hm

theorem copyFolderRecursiveSync_lookup_ne (sourceName : String) (source : FSTree)
    (t t' : List (String × FSTree)) (m : String)
    (h : copyFolderRecursiveSync sourceName source t = some t') (hm : m ≠ sourceName) :
    lookupEntry t' m = lookupEntry t m := by
  cases source with
  | file content =>
    unfold copyFolderRecursiveSync at h
    split at h
    · cases h
      exact lookupEntry_setEntry_ne t sourceName m _ hm
    · cases h
      rfl
  | dir children =>
    unfold copyFolderRecursiveSync at h
    split at h
    · split at h
      · cases h
        rfl
      · exact absurd h (by simp)
    · rcases Option.map_eq_some'.mp h with ⟨cs, _, rfl⟩
      exact lookupEntry_setEntry_ne t sourceName m _ hm
    · rcases Option.map_eq_some'.mp h with ⟨cs, _, rfl⟩
      exact lookupEntry_setEntry_ne t sourceName m _ hm

theorem copyChildren_lookup_ne (l : List (String × FSTree))
    (t t' : List (String × FSTree)) (m : String)
    (h : copyChildren l t = some t') (hm : ¬ m ∈ l.map Prod.fst) :
    lookupEntry t' m = lookupEntry t m := by
  induction l generalizing t with
  | nil =>
    simp only [copyChildren] at h
    cases h
    rfl
  | cons kv rest ih =>
    obtain ⟨n, entry⟩ := kv
    simp only [List.map_cons, List.mem_cons] at hm
    push_neg at hm
    obtain ⟨hmn, hmr⟩ := hm
    cases entry with
    | file content =>
      simp only [copyChildren] at h
      split at h
      · exact absurd h (by simp)
      · rw [ih _ h hmr]
        exact copyFileSync_lookup_ne n content t _ m (by assumption) hmn
    | dir cs =>
      simp only [copyChildren] at h
      split at h
      · exact absurd h (by simp)
      · rw [ih _ h hmr]
        exact copyFolderRecursiveSync_lookup_ne n (.dir cs) t _ m (by assumption) hmn

theorem copyFileSync_eq_some (fileName content : String)
    (t t' : List (String × FSTree)) (h : copyFileSync fileName content t = some t') :
    t' = setEntry t fileName (.file content) := by
  unfold copyFileSync at h
  split at h
  · exact absurd h (by simp)
  · cases h
    rfl

/-- Re-running a successful relocation copy is a no-op: joint statement
for trees and directory listings, by strong induction on size. -/
theorem copy_rerun_strong (N : Nat) :
    (∀ (sourceName : String) (source : FSTree) (target d1 s : List (String × FSTree)),
        sizeOf source ≤ N → wfTree source = true →
        copyFolderRecursiveSync sourceName source target = some d1 →
        lookupEntry s sourceName = lookupEntry d1 sourceName →
        copyFolderRecursiveSync sourceName source s = some s) ∧
    (∀ (l t d1 : List (String × FSTree)),
        sizeOf l ≤ N → wfChildren l = true →
        copyChildren l t = some d1 → copyChildren l d1 = some d1) := by
  induction N with
  | zero =>
    constructor
    · intro sourceName source target d1 s hsz hwf h hs
      exact absurd hsz (by cases source <;> simp)
    · intro l t d1 hsz hwf h
      exact absurd hsz (by cases l <;> simp)
  | succ N ih =>
    obtain ⟨ihTree, ihList⟩ := ih
    constructor
    · intro sourceName source target d1 s hsz hwf h hs
      cases source with
      | file content =>
        unfold copyFolderRecursiveSync at h ⊢
        split at h
        next heq =>
          injection h with h
          subst h
          rw [lookupEntry_setEntry_self] at hs
          rw [hs]
        next val heq =>
          injection h with h
          subst h
          rw [heq] at hs
          rw [hs]
      | dir children =>
        have hwfc : wfChildren children = true := by simpa [wfTree] using hwf
        have hszc : sizeOf children ≤ N := by
          simp only [FSTree.dir.sizeOf_spec] at hsz
          omega
        unfold copyFolderRecursiveSync at h ⊢
        split at h
        next f heq =>
          split at h
          next hemp =>
            injection h with h
            subst h
            rw [heq] at hs
            rw [hs]
            show (if children.isEmpty = true then some s else none) = some s
            rw [hemp]
            simp
          next => exact absurd h (by simp)
        next existing heq =>
          rcases Option.map_eq_some'.mp h with ⟨A, hA, rfl⟩
          rw [lookupEntry_setEntry_self] at hs
          rw [hs]
          show Option.map (fun cs => setEntry s sourceName (FSTree.dir cs))
            (copyChildren children A) = some s
          rw [ihList children existing A hszc hwfc hA, Option.map_some',
            setEntry_eq_of_lookup s sourceName _ hs]
        next heq =>
          rcases Option.map_eq_some'.mp h with ⟨A, hA, rfl⟩
          rw [lookupEntry_setEntry_self] at hs
          rw [hs]
          show Option.map (fun cs => setEntry s sourceName (FSTree.dir cs))
            (copyChildren children A) = some s
          rw [ihList children [] A hszc hwfc hA, Option.map_some',
            setEntry_eq_of_lookup s sourceName _ hs]
    · intro l t d1 hsz hwf h
      cases l with
      | nil =>
        have h' : t = d1 := by simpa [copyChildren] using h
        subst h'
        simp [copyChildren]
      | cons kv rest =>
        obtain ⟨n, entry⟩ := kv
        have hwf' := hwf
        simp only [wfChildren, Bool.and_eq_true] at hwf'
        obtain ⟨⟨hcont, hwe⟩, hwr⟩ := hwf'
        have hn : ¬ n ∈ rest.map Prod.fst := by simpa using hcont
        have hszr : sizeOf rest ≤ N := by
          simp only [List.cons.sizeOf_spec, Prod.mk.sizeOf_spec] at hsz
          omega
        have hsze : sizeOf entry ≤ N := by
          simp only [List.cons.sizeOf_spec, Prod.mk.sizeOf_spec] at hsz
          omega
        cases entry with
        | file content =>
          simp only [copyChildren] at h ⊢
          split at h
          next => exact absurd h (by simp)
          next t2 heq =>
            have ht2 : t2 = setEntry t n (.file content) :=
              copyFileSync_eq_some n content t t2 heq
            have hl : lookupEntry d1 n = some (.file content) := by
              rw [copyChildren_lookup_ne rest t2 d1 n h hn, ht2, lookupEntry_setEntry_self]
            have hcf : copyFileSync n content d1 = some d1 := by
              unfold copyFileSync
              rw [hl]
              exact congrArg some (setEntry_eq_of_lookup d1 n _ hl)
            rw [hcf]
            exact ihList rest t2 d1 hszr hwr h
        | dir cs =>
          simp only [copyChildren] at h ⊢
          split at h
          next => exact absurd h (by simp)
          next t2 heq =>
            have hl : lookupEntry d1 n = lookupEntry t2 n :=
              copyChildren_lookup_ne rest t2 d1 n h hn
            have hcf : copyFolderRecursiveSync n (.dir cs) d1 = some d1 :=
              ihTree n (.dir cs) t t2 d1 hsze hwe heq hl
            rw [hcf]
            exact ihList rest t2 d1 hszr hwr h

/-! ## Concrete environments used by the closed theorems -/

/-- An environment in which every external command fails with exit code 1,
nothing is skipped, the retrieval for any changeset touches the single
file `f.xml`, and every package.xml description is `d`. -/
def demoFailEnv : Env where
  skipExistingChangeSets := false
  dirExists := fun _ => false
  watchEvents := fun _ => [⟨"rename", "f.xml"⟩]
  packageXML := fun _ => some "d"
  oracle := fun _ => { exit_code := 1, output := "" }

/-- An environment with `skipExistingChangeSets` enabled and every download
directory already present. -/
def demoSkipEnv : Env where
  skipExistingChangeSets := true
  dirExists := fun _ => true
  watchEvents := fun _ => []
  packageXML := fun _ => some "d"
  oracle := fun _ => { exit_code := 0, output := "" }

/-- The precondition of the configuration claim: a value that is a
non-empty string or a boolean (either true or false). -/
def nonEmptyStringOrBool : JSValue → Bool
  | .str s => !(s == "")
  | .bool _ => true

/-- A configuration whose values are all non-empty strings or booleans,
one of the booleans being `false`. -/
def badConfig : Config :=
  [("gitUsername", .str "kenji"), ("salesforceUsername", .str "me"),
   ("skipExistingChangeSets", .bool false)]

/-! ## Claim theorems -/

/-- C1, counterexample: in a batch pass where every external command
(branch query, checkout, retrieval) returns exit code 1 and this unit has
a readable `package.xml`, `populateAndPushBranches` still issues the
`git add`, `git commit` and `git push` commands for the unit — so a
non-zero exit code does not prevent staging, commit or push, contrary to
the claim. -/
theorem c1_counterexample :
    (demoFailEnv.oracle (Cmd.checkout "Foo")).exit_code ≠ 0 ∧
    (demoFailEnv.oracle (Cmd.retrieve "Foo")).exit_code ≠ 0 ∧
    (demoFailEnv.oracle (Cmd.branchQuery "Foo")).exit_code ≠ 0 ∧
    demoFailEnv.packageXML "Foo" = some "d" ∧
    Cmd.addFile "f.xml" ∈ populateAndPushBranches demoFailEnv ["Foo"] ∧
    Cmd.commit "d" ∈ populateAndPushBranches demoFailEnv ["Foo"] ∧
    Cmd.push ∈ populateAndPushBranches demoFailEnv ["Foo"] := by
  decide

/-- C1, amended: a stage's non-zero exit code never halts a unit —
`populateAndPushBranches` inspects no command result, so for every unit
(and every assignment of exit codes) each file returned by the retrieval
stage is staged, and whenever reading the unit's `package.xml` yields a
description the commit and the push are also attempted; a unit stops
before commit/push only when that read throws, which is driven by the
filesystem, not by any exit code.  When every unit of the batch has a
readable `package.xml`, the push is attempted for every unit of the
batch. -/
theorem c1_amended (env : Env) (branchNames : List String) (branchName : String)
    (hmem : branchName ∈ branchNames) :
    (∀ f ∈ (fetchChangeSets env false [branchName]).files,
      Cmd.addFile f ∈ (unitCmds env branchName).1) ∧
    (∀ d, env.packageXML branchName = some d →
      Cmd.commit d ∈ (unitCmds env branchName).1 ∧
      Cmd.push ∈ (unitCmds env branchName).1) ∧
    ((∀ n ∈ branchNames, (env.packageXML n).isSome = true) →
      Cmd.push ∈ populateAndPushBranches env branchNames) := by
  refine ⟨fun f hf => ?_, fun d hd => ?_, fun hall => ?_⟩
  · rcases hp : env.packageXML branchName with _ | d <;>
      simp [unitCmds, hp] <;> tauto
  · constructor <;> simp [unitCmds, hd]
  · exact push_mem_populateAndPushBranches env branchNames branchName hmem hall

/-- C1, witness for the amended theorem at a concrete one-unit batch. -/
theorem c1_amended_witness :
    (∀ f ∈ (fetchChangeSets demoFailEnv false ["Foo"]).files,
      Cmd.addFile f ∈ (unitCmds demoFailEnv "Foo").1) ∧
    (∀ d, demoFailEnv.packageXML "Foo" = some d →
      Cmd.commit d ∈ (unitCmds demoFailEnv "Foo").1 ∧
      Cmd.push ∈ (unitCmds demoFailEnv "Foo").1) ∧
    ((∀ n ∈ ["Foo"], (demoFailEnv.packageXML n).isSome = true) →
      Cmd.push ∈ populateAndPushBranches demoFailEnv ["Foo"]) :=
  c1_amended demoFailEnv ["Foo"] "Foo" (by decide)

/-- C2: evaluating `fetchChangeSets` on the batch path (no relocation)
shows the watcher opened for the retrieval is never closed on the path
that returns the collected file list: `watcher.close()` stands after the
`return` statement and is unreachable, so a watcher leaks although the
file list is returned. -/
theorem c2_code_bug :
    (fetchChangeSets demoFailEnv false ["Foo"]).watchersOpened = 1 ∧
    (fetchChangeSets demoFailEnv false ["Foo"]).watchersClosed = 0 ∧
    (fetchChangeSets demoFailEnv false ["Foo"]).files = ["f.xml"] := by
  decide

/-- C3, counterexample: a label with two adjacent spaces maps to two
hyphens, not one — `replace(/\s/g, "-")` replaces characters, not runs. -/
theorem c3_counterexample :
    convertPackgeNameToGitName "a  b" = "a--b" ∧
    convertPackgeNameToGitName "a  b" ≠ "a-b" := by
  decide

/-- C3, amended: the derivation replaces every single whitespace character
with one hyphen (a run of n whitespace characters yields n hyphens): it
preserves length, leaves no whitespace in the output, maps each position
pointwise, and is idempotent. -/
theorem c3_amended (s : String) :
    (convertPackgeNameToGitName s).data.length = s.data.length ∧
    (convertPackgeNameToGitName s).data.all (fun c => !jsWhitespace c) = true ∧
    (∀ i : Nat, (convertPackgeNameToGitName s).data[i]? =
      (s.data[i]?).map (fun c => if jsWhitespace c then '-' else c)) ∧
    convertPackgeNameToGitName (convertPackgeNameToGitName s) =
      convertPackgeNameToGitName s := by
  refine ⟨by simp [convertPackgeNameToGitName], ?_, ?_, ?_⟩
  · simp only [convertPackgeNameToGitName, List.all_eq_true]
    intro c hc
    rcases List.mem_map.mp hc with ⟨c0, _, rfl⟩
    by_cases h : jsWhitespace c0 = true
    · rw [if_pos h]
      decide
    · rw [if_neg h]
      simp only [Bool.not_eq_true] at h
      simp [h]
  · intro i
    simp [convertPackgeNameToGitName, List.getElem?_map]
  · simp only [convertPackgeNameToGitName, List.map_map]
    refine congrArg String.mk (List.map_congr_left fun c _ => ?_)
    simp only [Function.comp_apply]
    by_cases h : jsWhitespace c = true
    · have hg : (if jsWhitespace c = true then '-' else c) = '-' := if_pos h
      rw [hg]
      decide
    · have hg : (if jsWhitespace c = true then '-' else c) = c := if_neg h
      rw [hg]
      exact hg

/-- C4: evaluating `createGitBranch` on a label whose branch does not
exist shows the creation command is never issued: the existence check is
called without `await`, the `if` sees the truthy Promise object, and the
`git branch -f` line is unreachable; the awaited value of
`checkIfBranchExists` would in any case be `false` for every command
result. -/
theorem c4_code_bug :
    createGitBranch "feature x" = [Cmd.branchQuery "feature-x"] ∧
    Cmd.branchCreate "feature-x" ∉ createGitBranch "feature x" ∧
    checkIfBranchExists { exit_code := 0, output := "" } = false := by
  decide

/-- C5: with `skipExistingChangeSets` set and the download directory of a
unit present, no retrieval command for that unit is ever issued, and the
call on that single unit returns the empty file list with no commands, no
watcher, and no copy. -/
theorem c5_theorem (env : Env) (copyFlag : Bool) (names : List String) (name : String)
    (hskip : env.skipExistingChangeSets = true) (hdir : env.dirExists name = true) :
    Cmd.retrieve name ∉ (fetchChangeSets env copyFlag names).cmds ∧
    fetchChangeSets env copyFlag [name] =
      { files := [], cmds := [], watchersOpened := 0, watchersClosed := 0, copied := [] } := by
  constructor
  · rw [fetchChangeSets_cmds]
    intro hmem
    rcases hfind : names.find? (fun n => !(env.skipExistingChangeSets && env.dirExists n)) with
      _ | n0
    · rw [hfind] at hmem
      simp at hmem
    · rw [hfind] at hmem
      have hn0 : name = n0 := by simpa using hmem
      subst hn0
      have := List.find?_some hfind
      simp [hskip, hdir] at this
  · simp [fetchChangeSets, hskip, hdir]

/-- C5, witness at a concrete skipped unit. -/
theorem c5_witness :
    Cmd.retrieve "Foo" ∉ (fetchChangeSets demoSkipEnv false ["Foo"]).cmds ∧
    fetchChangeSets demoSkipEnv false ["Foo"] =
      { files := [], cmds := [], watchersOpened := 0, watchersClosed := 0, copied := [] } :=
  c5_theorem demoSkipEnv false ["Foo"] "Foo" rfl rfl

/-- C6: for every sequence of stream chunks and every exit code — zero or
not — `runCommand` resolves with exactly that exit code and with the
concatenation of all stdout/stderr chunks in arrival order; it is a total
function, so no exit code makes it throw or reject. -/
theorem c6_theorem (events : List ChildEvent) (code : Int) :
    (runCommand events code).exit_code = code ∧
    (runCommand events code).output = String.join (events.map ChildEvent.chunk) := by
  refine ⟨rfl, ?_⟩
  show runCommandOutput "" events = _
  rw [runCommandOutput_eq]
  apply String.ext
  simp [String.data_append]

/-- C7, counterexample: a configuration whose values are all non-empty
strings or booleans is nevertheless rejected at startup — the boolean
`false` is loosely equal to the empty string, so the emptiness check
flags it and `init` throws before the menu. -/
theorem c7_counterexample :
    badConfig.all (fun kv => nonEmptyStringOrBool kv.2) = true ∧
    init badConfig = Except.error
      "Property skipExistingChangeSets in config must not be empty. Please populate it and try again" :=
  ⟨by decide, rfl⟩

/-- C7, amended: startup validation accepts a configuration (and the run
reaches the menu) exactly when `gitUsername` contains no `@` and no
property value is loosely equal to the empty string — so empty strings
and `false` booleans are rejected, and only properties actually present
are checked. -/
theorem c7_amended (cfg : Config) (u : String)
    (hu : getProperty cfg "gitUsername" = some (.str u)) :
    init cfg = Except.ok () ↔
      (u.data.contains '@' = false ∧
       ∀ kv ∈ cfg, looseEqEmptyString kv.2 = false) := by
  unfold init checkConfigsValid
  rw [hu]
  by_cases hc : u.data.contains '@' = true
  · have hm : '@' ∈ u.data := by simpa using hc
    simp [hc, checkConfigsLoop_valid]
    intro _
    simp [hm]
  · simp only [Bool.not_eq_true] at hc
    have hm : ¬ '@' ∈ u.data := by simpa using hc
    simp [hc, checkConfigsLoop_valid, List.all_eq_true]
    intro _
    simp [hm]

/-- C7, witness for the amended theorem at a concrete configuration. -/
theorem c7_witness :
    init [("gitUsername", JSValue.str "kenji")] = Except.ok () ↔
      ("kenji".data.contains '@' = false ∧
       ∀ kv ∈ [("gitUsername", JSValue.str "kenji")], looseEqEmptyString kv.2 = false) :=
  c7_amended [("gitUsername", JSValue.str "kenji")] "kenji" rfl

/-- C8: the relocation copy is idempotent — re-running a successful
`copyFolderRecursiveSync` of the same source content on the resulting
destination leaves it unchanged (source listings have distinct entry
names, as `readdirSync` produces them). -/
theorem c8_theorem (sourceName : String) (source : FSTree)
    (target d1 : List (String × FSTree)) (hwf : wfTree source = true)
    (h : copyFolderRecursiveSync sourceName source target = some d1) :
    copyFolderRecursiveSync sourceName source d1 = some d1 :=
  (copy_rerun_strong (sizeOf source)).1 sourceName source target d1 d1 le_rfl hwf h rfl

/-- C8, witness: copying a one-file package into an empty target and
re-running the copy on the result. -/
theorem c8_witness :
    copyFolderRecursiveSync "pkg" (FSTree.dir [("f", FSTree.file "x")])
      [("pkg", FSTree.dir [("f", FSTree.file "x")])]
      = some [("pkg", FSTree.dir [("f", FSTree.file "x")])] :=
  c8_theorem "pkg" (FSTree.dir [("f", FSTree.file "x")]) []
    [("pkg", FSTree.dir [("f", FSTree.file "x")])] rfl rfl

/-- C9: over any event sequence the touched-file list is duplicate-free
and contains exactly the filenames of observed events that end in
`.xml`; in particular the sequence create `a.xml`, modify `a.xml`,
create `b.txt`, create `c.xml` yields exactly `a.xml` and `c.xml`. -/
theorem c9_theorem :
    (∀ events : List WatchEvent,
      (touchedFiles events).Nodup ∧
      ∀ f : String, f ∈ touchedFiles events ↔
        ((∃ e ∈ events, e.filename = f) ∧ endsWithXml f = true)) ∧
    touchedFiles [⟨"rename", "a.xml"⟩, ⟨"change", "a.xml"⟩,
        ⟨"rename", "b.txt"⟩, ⟨"rename", "c.xml"⟩]
      = ["a.xml", "c.xml"] := by
  refine ⟨fun events => ⟨nodup_jsSetDedup _, fun f => ?_⟩, by decide⟩
  rw [touchedFiles, mem_jsSetDedup, mem_watcherRecordedFiles]

/-- C10: one call to `fetchChangeSets` issues the retrieval command for at
most one changeset: exactly the first name of the list that the skip
policy does not skip (and none at all when every name is skipped) — every
later name is never fetched because both branches after a retrieval
return from inside the loop. -/
theorem c10_theorem (env : Env) (copyFlag : Bool) (names : List String) :
    (fetchChangeSets env copyFlag names).cmds =
      (match names.find? (fun n => !(env.skipExistingChangeSets && env.dirExists n)) with
        | some n => [Cmd.retrieve n]
        | none => []) ∧
    (fetchChangeSets env copyFlag names).cmds.length ≤ 1 := by
  refine ⟨fetchChangeSets_cmds env copyFlag names, ?_⟩
  rw [fetchChangeSets_cmds]
  rcases names.find? (fun n => !(env.skipExistingChangeSets && env.dirExists n)) with _ | n <;>
    simp

end SFGH
